import Mathlib

/-!
Verification of the volleyball team ELO tracker (`volleyball_elo_v2.py`).

The source keeps two pieces of session state: `players`, an insertion-ordered
dictionary from player name to current rating, and `match_history`, an
append-only list of match records.  The pure rating mathematics
(`calculate_expected_score`, `calculate_team_rating`, `update_elo_ratings`)
is embedded over exact real arithmetic; Python's `round` builtin
(round-half-to-even on floats) is embedded as `pyRound`.  Python's fallible
division (`ZeroDivisionError` on an empty team) is embedded with `Option`.
-/

namespace VolleyballElo

/-! ## String helpers: Python `str.split(',')` and `str.strip()` -/

/-- Auxiliary for splitting a character list at commas, mirroring Python
`str.split(',')`: every comma separates two (possibly empty) fields. -/
def splitCommaAux : List Char → List Char → List (List Char)
  | [], cur => [cur.reverse]
  | c :: rest, cur =>
    if c = ',' then cur.reverse :: splitCommaAux rest []
    else splitCommaAux rest (c :: cur)

/-- Python `s.split(',')`. -/
def pySplitComma (s : String) : List String :=
  (splitCommaAux s.data []).map fun cs => String.mk cs

/-- Python `s.strip()`: drop leading and trailing whitespace. -/
def pyStrip (s : String) : String :=
  String.mk (((s.data.dropWhile Char.isWhitespace).reverse.dropWhile
    Char.isWhitespace).reverse)

/-- `parse_team_string` (line 41): `[player.strip() for player in
team_str.split(',') if player.strip()]`. -/
def parse_team_string (team_str : String) : List String :=
  ((pySplitComma team_str).map pyStrip).filter fun player => player ≠ ""

/-! ## Python `round`: round to nearest, ties to even -/

/-- Python's builtin `round` on a real value: nearest integer, ties go to the
even neighbour.  Away from ties this agrees with Mathlib's `round`. -/
noncomputable def pyRound (x : ℝ) : ℤ :=
  if Int.fract x = 1 / 2 then (if Even ⌊x⌋ then ⌊x⌋ else ⌊x⌋ + 1)
  else round x

/-! ## RatingMath (lines 7-39) -/

/-- `calculate_expected_score` (line 7): `1 / (1 + 10**((rating_b - rating_a) / 400))`. -/
noncomputable def calculate_expected_score (rating_a rating_b : ℝ) : ℝ :=
  1 / (1 + (10 : ℝ) ^ ((rating_b - rating_a) / 400))

/-- `calculate_team_rating` (line 11): `sum(player_ratings) / len(player_ratings)`.
Python raises `ZeroDivisionError` on an empty list, embedded as `none`. -/
noncomputable def calculate_team_rating (player_ratings : List ℝ) : Option ℝ :=
  if player_ratings.length = 0 then none
  else some (player_ratings.sum / (player_ratings.length : ℝ))

/-- `update_elo_ratings` (line 15): team ELO update with a single shared
`rating_change = k * (score_a - expected_a)` added to every member of team A
and subtracted from every member of team B, each result rounded. -/
noncomputable def update_elo_ratings (team_a_ratings team_b_ratings : List ℝ)
    (team_a_wins : Bool) (k : ℝ) : Option (List ℤ × List ℤ × ℤ) :=
  match calculate_team_rating team_a_ratings, calculate_team_rating team_b_ratings with
  | some avg_rating_a, some avg_rating_b =>
    let expected_a := calculate_expected_score avg_rating_a avg_rating_b
    let score_a : ℝ := if team_a_wins then 1 else 0
    let rating_change := k * (score_a - expected_a)
    some (team_a_ratings.map (fun rating => pyRound (rating + rating_change)),
          team_b_ratings.map (fun rating => pyRound (rating - rating_change)),
          pyRound rating_change)
  | _, _ => none

/-- The intermediate `rating_change` value computed inside
`update_elo_ratings` (line 33): `k * (score_a - expected_a)`. -/
noncomputable def rating_changeR (team_a_ratings team_b_ratings : List ℝ)
    (team_a_wins : Bool) (k : ℝ) : ℝ :=
  k * ((if team_a_wins then (1 : ℝ) else 0) -
    calculate_expected_score
      (team_a_ratings.sum / (team_a_ratings.length : ℝ))
      (team_b_ratings.sum / (team_b_ratings.length : ℝ)))

/-! ## RatingStore: the `st.session_state.players` dict

Python dicts are insertion ordered: assignment to a present key updates it in
place, assignment to an absent key appends.  Ratings are stored as reals so
that integrality (claim C9) is a provable invariant, not a typing artifact. -/

/-- Dictionary lookup in an insertion-ordered association list. -/
def dictLookup : List (String × ℝ) → String → Option ℝ
  | [], _ => none
  | (k', v) :: rest, k => if k' = k then some v else dictLookup rest k

/-- Dictionary assignment `d[k] = v`: update in place if present, else append. -/
def dictSet : List (String × ℝ) → String → ℝ → List (String × ℝ)
  | [], k, v => [(k, v)]
  | (k', v') :: rest, k, v =>
    if k' = k then (k', v) :: rest else (k', v') :: dictSet rest k v

/-- Lines 250-253 / 343-347: `for player in all_players: if player not in
players: players[player] = 1400`. -/
def initPlayers (d : List (String × ℝ)) (ps : List String) : List (String × ℝ) :=
  ps.foldl (fun acc p => if (dictLookup acc p).isSome then acc else acc ++ [(p, 1400)]) d

/-- `st.session_state.players[p]` for a key known to be present (both call
sites read only just-initialized players; the default is never reached). -/
def getRating (d : List (String × ℝ)) (p : String) : ℝ :=
  (dictLookup d p).getD 0

/-- Lines 266-269 / 366-369: `for i, player in enumerate(team_players):
players[player] = new_ratings[i]`. -/
def applyRatings (d : List (String × ℝ)) (ps : List String) (rs : List ℤ) :
    List (String × ℝ) :=
  (ps.zip rs).foldl (fun acc pr => dictSet acc pr.1 (pr.2 : ℝ)) d

/-! ## MatchProcessor state and records -/

/-- One entry of `st.session_state.match_history` (the `match_info` dict of
lines 272-278 / 372-378). -/
structure MatchRecord where
  Team_A : String
  Team_B : String
  Winner : String
  Team_A_Rating_Change : ℤ
  Team_B_Rating_Change : ℤ
  deriving Repr, DecidableEq

/-- One CSV row of the bulk upload: columns `Team_A`, `Team_B`, `Winner`. -/
structure Row where
  Team_A : String
  Team_B : String
  Winner : String
  deriving Repr, DecidableEq

/-- The mutable session state: `players` dict and `match_history` list. -/
structure AppState where
  players : List (String × ℝ)
  match_history : List MatchRecord

/-- Lines 46-49: both stores start empty. -/
def initialState : AppState := ⟨[], []⟩

/-- Quick match entry (lines 241-282).  `team_a_wins` models the two-value
winner selectbox.  Returns the new state and the appended record, or `none`
when the submission is rejected (empty input string or empty parsed team),
in which case nothing is mutated. -/
noncomputable def process_quick_entry (s : AppState) (team_a team_b : String)
    (team_a_wins : Bool) : AppState × Option MatchRecord :=
  if team_a = "" ∨ team_b = "" then (s, none)
  else
    let team_a_players := parse_team_string team_a
    let team_b_players := parse_team_string team_b
    if team_a_players.length = 0 ∨ team_b_players.length = 0 then (s, none)
    else
      let players' := initPlayers s.players (team_a_players ++ team_b_players)
      let team_a_ratings := team_a_players.map (getRating players')
      let team_b_ratings := team_b_players.map (getRating players')
      match update_elo_ratings team_a_ratings team_b_ratings team_a_wins 32 with
      | none => (s, none)
      | some (new_ratings_a, new_ratings_b, rating_change) =>
        let players'' := applyRatings (applyRatings players' team_a_players new_ratings_a)
          team_b_players new_ratings_b
        let match_info : MatchRecord :=
          { Team_A := team_a, Team_B := team_b,
            Winner := if team_a_wins then "Team_A" else "Team_B",
            Team_A_Rating_Change := if team_a_wins then rating_change else -rating_change,
            Team_B_Rating_Change := if team_a_wins then -rating_change else rating_change }
        (⟨players'', s.match_history ++ [match_info]⟩, some match_info)

/-- One iteration of the bulk-upload row loop (lines 330-380).  Returns the
new state and `some record` when the row was applied, `none` when it was
skipped with a warning.  Note the source initializes players *before*
validating the winner token. -/
noncomputable def process_bulk_row (s : AppState) (row : Row) :
    AppState × Option MatchRecord :=
  let team_a := pyStrip row.Team_A
  let team_b := pyStrip row.Team_B
  let winner := pyStrip row.Winner
  let team_a_players := parse_team_string team_a
  let team_b_players := parse_team_string team_b
  if team_a_players.length = 0 ∨ team_b_players.length = 0 then (s, none)
  else
    let players' := initPlayers s.players (team_a_players ++ team_b_players)
    let team_a_ratings := team_a_players.map (getRating players')
    let team_b_ratings := team_b_players.map (getRating players')
    if winner ≠ "Team_A" ∧ winner ≠ "Team_B" then (⟨players', s.match_history⟩, none)
    else
      let team_a_wins := winner = "Team_A"
      match update_elo_ratings team_a_ratings team_b_ratings team_a_wins 32 with
      | none => (⟨players', s.match_history⟩, none)
      | some (new_ratings_a, new_ratings_b, rating_change) =>
        let players'' := applyRatings (applyRatings players' team_a_players new_ratings_a)
          team_b_players new_ratings_b
        let match_info : MatchRecord :=
          { Team_A := team_a, Team_B := team_b, Winner := winner,
            Team_A_Rating_Change := if team_a_wins then rating_change else -rating_change,
            Team_B_Rating_Change := if team_a_wins then -rating_change else rating_change }
        (⟨players'', s.match_history ++ [match_info]⟩, some match_info)

/-- The bulk-upload loop (lines 327-381): rows processed strictly in order,
each from the state left by its predecessors; applied rows are collected in
`processed_matches` and appended to history, skipped rows produce warnings
(counted here). -/
noncomputable def process_batch (s : AppState) :
    List Row → AppState × List MatchRecord × ℕ
  | [] => (s, [], 0)
  | row :: rows =>
    match process_bulk_row s row with
    | (s', some rec) =>
      let rest := process_batch s' rows
      (rest.1, rec :: rest.2.1, rest.2.2)
    | (s', none) =>
      let rest := process_batch s' rows
      (rest.1, rest.2.1, rest.2.2 + 1)

/-- Every stored rating is (the cast of) an integer. -/
def IntegerValued (d : List (String × ℝ)) : Prop :=
  ∀ p r, dictLookup d p = some r → ∃ n : ℤ, r = (n : ℝ)

/-- States reachable from session start through the admin operations:
quick entry, bulk upload, and the reset that clears both stores. -/
inductive Reach : AppState → Prop
  | init : Reach initialState
  | quick (s : AppState) (ta tb : String) (w : Bool) :
      Reach s → Reach (process_quick_entry s ta tb w).1
  | bulk (s : AppState) (rows : List Row) :
      Reach s → Reach (process_batch s rows).1
  | reset (s : AppState) : Reach s → Reach initialState

/-! ## Lemmas about `pyRound` -/

theorem pyRound_eq_round {x : ℝ} (h : Int.fract x ≠ 1 / 2) : pyRound x = round x :=
  if_neg h

theorem fract_intCast_ne_half (n : ℤ) : Int.fract ((n : ℝ)) ≠ 1 / 2 := by
  rw [Int.fract_intCast]; norm_num

theorem pyRound_intCast (n : ℤ) : pyRound ((n : ℝ)) = n := by
  rw [pyRound_eq_round (fract_intCast_ne_half n), round_intCast]

theorem pyRound_eq_of_eq_intCast {x : ℝ} {n : ℤ} (h : x = (n : ℝ)) : pyRound x = n := by
  rw [h, pyRound_intCast]

theorem round_neg_of_fract_ne_half {x : ℝ} (h : Int.fract x ≠ 1 / 2) :
    round (-x) = -round x := by
  have hxf : ((⌊x⌋ : ℝ)) + Int.fract x = x := Int.floor_add_fract x
  have hf0 : 0 ≤ Int.fract x := Int.fract_nonneg x
  have hf1 : Int.fract x < 1 := Int.fract_lt_one x
  have hrx : round x = ⌊x⌋ + ⌊Int.fract x + 1 / 2⌋ := by
    conv_lhs => rw [round_eq, ← hxf]
    rw [add_assoc, Int.floor_int_add]
  have hrnx : round (-x) = -⌊x⌋ + ⌊1 / 2 - Int.fract x⌋ := by
    conv_lhs => rw [round_eq, ← hxf]
    have hre : -(((⌊x⌋ : ℝ)) + Int.fract x) + 1 / 2 =
        ((-⌊x⌋ : ℤ) : ℝ) + (1 / 2 - Int.fract x) := by push_cast; ring
    rw [hre, Int.floor_int_add]
  rcases eq_or_lt_of_le hf0 with h0 | h0
  · have hint : ⌊Int.fract x + 1 / 2⌋ = 0 := by
      rw [Int.floor_eq_zero_iff, Set.mem_Ico]
      constructor <;> [linarith; linarith]
    have hint2 : ⌊1 / 2 - Int.fract x⌋ = 0 := by
      rw [Int.floor_eq_zero_iff, Set.mem_Ico]
      constructor <;> [linarith; linarith]
    omega
  · rcases lt_or_gt_of_ne h with hlt | hgt
    · have hint : ⌊Int.fract x + 1 / 2⌋ = 0 := by
        rw [Int.floor_eq_zero_iff, Set.mem_Ico]
        constructor <;> [linarith; linarith]
      have hint2 : ⌊1 / 2 - Int.fract x⌋ = 0 := by
        rw [Int.floor_eq_zero_iff, Set.mem_Ico]
        constructor <;> [linarith; linarith]
      omega
    · have hint : ⌊Int.fract x + 1 / 2⌋ = 1 := by
        rw [Int.floor_eq_iff]
        constructor <;> [push_cast; push_cast] <;> linarith
      have hint2 : ⌊1 / 2 - Int.fract x⌋ = -1 := by
        rw [Int.floor_eq_iff]
        constructor <;> [push_cast; push_cast] <;> linarith
      omega

theorem fract_neg_ne_half {x : ℝ} (h : Int.fract x ≠ 1 / 2) :
    Int.fract (-x) ≠ 1 / 2 := by
  rcases eq_or_ne (Int.fract x) 0 with h0 | h0
  · rw [Int.fract_neg_eq_zero.mpr h0]; norm_num
  · rw [Int.fract_neg h0]
    intro hc
    apply h
    linarith

theorem pyRound_neg_of_fract_ne_half {x : ℝ} (h : Int.fract x ≠ 1 / 2) :
    pyRound (-x) = -pyRound x := by
  rw [pyRound_eq_round (fract_neg_ne_half h), pyRound_eq_round h,
    round_neg_of_fract_ne_half h]

theorem pyRound_int_add {x : ℝ} (h : Int.fract x ≠ 1 / 2) (n : ℤ) :
    pyRound ((n : ℝ) + x) = n + pyRound x := by
  have h2 : Int.fract ((n : ℝ) + x) ≠ 1 / 2 := by rwa [Int.fract_int_add]
  rw [pyRound_eq_round h2, pyRound_eq_round h, round_int_add]

theorem pyRound_int_sub {x : ℝ} (h : Int.fract x ≠ 1 / 2) (n : ℤ) :
    pyRound ((n : ℝ) - x) = n - pyRound x := by
  have hs : (n : ℝ) - x = (n : ℝ) + -x := by ring
  rw [hs, pyRound_int_add (fract_neg_ne_half h), pyRound_neg_of_fract_ne_half h]
  omega

/-! ## Lemmas about the rating-store dictionary -/

theorem dictLookup_dictSet (d : List (String × ℝ)) (k q : String) (v : ℝ) :
    dictLookup (dictSet d k v) q = if k = q then some v else dictLookup d q := by
  induction d with
  | nil =>
    by_cases h : k = q <;> simp [dictSet, dictLookup, h]
  | cons hd tl ih =>
    obtain ⟨k', v'⟩ := hd
    by_cases hk : k' = k
    · subst hk
      by_cases hq : k' = q <;> simp [dictSet, dictLookup, hq]
    · by_cases hq : k' = q
      · subst hq
        have hkq : k ≠ k' := fun hc => hk hc.symm
        simp [dictSet, dictLookup, hk, hkq]
      · simp [dictSet, dictLookup, hk, hq, ih]

theorem dictLookup_append_single_of_some {d : List (String × ℝ)} {q : String} {r : ℝ}
    (h : dictLookup d q = some r) (k : String) (v : ℝ) :
    dictLookup (d ++ [(k, v)]) q = some r := by
  induction d with
  | nil => simp [dictLookup] at h
  | cons hd tl ih =>
    obtain ⟨k', v'⟩ := hd
    by_cases hq : k' = q
    · simp [dictLookup, hq] at h ⊢; exact h
    · simp [dictLookup, hq] at h ⊢; exact ih h

theorem dictLookup_append_single_of_none {d : List (String × ℝ)} {q : String}
    (h : dictLookup d q = none) (k : String) (v : ℝ) :
    dictLookup (d ++ [(k, v)]) q = if k = q then some v else none := by
  induction d with
  | nil => by_cases hk : k = q <;> simp [dictLookup, hk]
  | cons hd tl ih =>
    obtain ⟨k', v'⟩ := hd
    by_cases hq : k' = q
    · simp [dictLookup, hq] at h
    · simp [dictLookup, hq] at h ⊢; exact ih h

theorem dictLookup_initPlayers (d : List (String × ℝ)) (ps : List String) (q : String) :
    dictLookup (initPlayers d ps) q =
      if (dictLookup d q).isSome then dictLookup d q
      else if q ∈ ps then some 1400 else none := by
  induction ps generalizing d with
  | nil =>
    cases h : dictLookup d q <;> simp [initPlayers, h]
  | cons p t ih =>
    have hstep : initPlayers d (p :: t) =
        initPlayers (if (dictLookup d p).isSome then d else d ++ [(p, 1400)]) t := by
      simp [initPlayers]
    rw [hstep]
    by_cases hp : (dictLookup d p).isSome
    · rw [if_pos hp, ih]
      by_cases hq : (dictLookup d q).isSome
      · simp [hq]
      · by_cases hqp : q = p
        · subst hqp; exact absurd hp (by simpa using hq)
        · simp [hq, hqp]
    · rw [if_neg hp, ih]
      rcases hdq : dictLookup d q with _ | r
      · rw [dictLookup_append_single_of_none hdq]
        by_cases hqp : p = q
        · simp [hqp]
        · have : ¬q = p := fun hc => hqp hc.symm
          simp [hqp, this]
      · rw [dictLookup_append_single_of_some hdq]
        simp

theorem applyRatings_nil_left (d : List (String × ℝ)) (rs : List ℤ) :
    applyRatings d [] rs = d := by
  simp [applyRatings]

theorem applyRatings_nil_right (d : List (String × ℝ)) (ps : List String) :
    applyRatings d ps [] = d := by
  simp [applyRatings]

theorem applyRatings_cons (d : List (String × ℝ)) (p : String) (t : List String)
    (r : ℤ) (rt : List ℤ) :
    applyRatings d (p :: t) (r :: rt) = applyRatings (dictSet d p (r : ℝ)) t rt := by
  simp [applyRatings]

theorem dictLookup_applyRatings_not_mem (d : List (String × ℝ)) (ps : List String)
    (rs : List ℤ) (q : String) (h : q ∉ ps) :
    dictLookup (applyRatings d ps rs) q = dictLookup d q := by
  induction ps generalizing d rs with
  | nil => simp [applyRatings]
  | cons p t ih =>
    cases rs with
    | nil => simp [applyRatings]
    | cons r rt =>
      have hqp : q ≠ p := fun hc => h (by simp [hc])
      have hqt : q ∉ t := fun hc => h (by simp [hc])
      rw [applyRatings_cons, ih _ _ hqt, dictLookup_dictSet,
        if_neg (fun hc : p = q => hqp hc.symm)]

theorem dictLookup_applyRatings_map (d : List (String × ℝ)) (ps : List String)
    (g : String → ℤ) (q : String) :
    dictLookup (applyRatings d ps (ps.map g)) q =
      if q ∈ ps then some ((g q : ℤ) : ℝ) else dictLookup d q := by
  induction ps generalizing d with
  | nil => simp [applyRatings]
  | cons p t ih =>
    rw [List.map_cons, applyRatings_cons, ih]
    by_cases hq : q ∈ t
    · simp [hq]
    · by_cases hqp : q = p
      · subst hqp
        simp [hq, dictLookup_dictSet]
      · have : p ≠ q := fun hc => hqp hc.symm
        simp [hq, hqp, dictLookup_dictSet, this]

/-! ## Integrality preservation -/

theorem integerValued_nil : IntegerValued [] := by
  intro p r hp
  simp [dictLookup] at hp

theorem integerValued_dictSet {d : List (String × ℝ)} (hd : IntegerValued d)
    (k : String) (n : ℤ) : IntegerValued (dictSet d k ((n : ℝ))) := by
  intro p r hp
  rw [dictLookup_dictSet] at hp
  by_cases h : k = p
  · rw [if_pos h] at hp
    exact ⟨n, (Option.some_injective _ hp).symm⟩
  · rw [if_neg h] at hp
    exact hd p r hp

theorem integerValued_applyRatings {d : List (String × ℝ)} (hd : IntegerValued d)
    (ps : List String) (rs : List ℤ) : IntegerValued (applyRatings d ps rs) := by
  induction ps generalizing d rs with
  | nil => simpa [applyRatings] using hd
  | cons p t ih =>
    cases rs with
    | nil => simpa [applyRatings] using hd
    | cons r rt =>
      rw [applyRatings_cons]
      exact ih (integerValued_dictSet hd p r) rt

theorem integerValued_initPlayers {d : List (String × ℝ)} (hd : IntegerValued d)
    (ps : List String) : IntegerValued (initPlayers d ps) := by
  intro p r hp
  rw [dictLookup_initPlayers] at hp
  by_cases h : (dictLookup d p).isSome
  · rw [if_pos h] at hp
    exact hd p r hp
  · rw [if_neg h] at hp
    by_cases hm : p ∈ ps
    · rw [if_pos hm] at hp
      exact ⟨1400, by exact_mod_cast (Option.some_injective _ hp).symm⟩
    · rw [if_neg hm] at hp
      exact absurd hp (by simp)

/-! ## The rating change is never a half-integer

Over exact real arithmetic, `k * (score - expected)` with `k = 32`, integer
score and rational rating averages can never land exactly on `m + 1/2`:
if it did, `10 ^ (d / 400)` would be rational, forcing the exponent to be an
integer, and then `32 / (1 + 10 ^ m)` would have to be a half-integer, which
elementary divisibility rules out.  Consequently Python's ties-to-even
rounding never actually faces a tie, and rounding commutes with adding an
integer rating. -/

theorem coprime_pow_ten_succ (n : ℕ) : Nat.Coprime (10 ^ n + 1) (10 ^ n) := by
  simp [Nat.Coprime, Nat.succ_sub_one, Nat.gcd_comm]

theorem nat_pow_eq_ten_pow_dvd (u N P : ℕ) (h : u ^ N = 10 ^ P) :
    N ∣ P := by
  have hfact : (u ^ N).factorization = (10 ^ P).factorization := by rw [h]
  rw [Nat.factorization_pow, Nat.factorization_pow] at hfact
  have h2 : N * u.factorization 2 = P * (10 : ℕ).factorization 2 := by
    have := congrArg (fun f => f 2) hfact
    simpa using this
  have h10 : (10 : ℕ).factorization 2 = 1 := by
    have hmul : (10 : ℕ) = 2 * 5 := by norm_num
    rw [hmul, Nat.factorization_mul (by norm_num) (by norm_num)]
    rw [Nat.prime_two.factorization, (by norm_num : Nat.Prime 5).factorization]
    simp
  rw [h10, mul_one] at h2
  exact ⟨u.factorization 2, h2.symm⟩

theorem rat_pow_eq_ten_pow_dvd (r : ℚ) (hr : 0 < r) (N P : ℕ) (hN : 0 < N)
    (h : r ^ N = (10 : ℚ) ^ P) : N ∣ P := by
  have hcast : (10 : ℚ) ^ P = (((10 ^ P : ℕ) : ℤ) : ℚ) := by push_cast; ring
  rw [hcast] at h
  have hden : r.den ^ N = 1 := by
    have := congrArg Rat.den h
    rwa [Rat.den_pow, Rat.den_intCast] at this
  have hden1 : r.den = 1 := (pow_eq_one_iff hN.ne').mp hden
  have hnum : r.num ^ N = ((10 ^ P : ℕ) : ℤ) := by
    have := congrArg Rat.num h
    rwa [Rat.num_pow, Rat.num_intCast] at this
  have hnpos : 0 < r.num := Rat.num_pos.mpr hr
  have hnat : r.num.toNat ^ N = 10 ^ P := by
    have h1 : ((r.num.toNat ^ N : ℕ) : ℤ) = ((10 ^ P : ℕ) : ℤ) := by
      rw [Nat.cast_pow, Int.toNat_of_nonneg hnpos.le]
      exact hnum
    exact_mod_cast h1
  exact nat_pow_eq_ten_pow_dvd _ _ _ hnat

theorem rpow_ten_rat_eq_rat {q r : ℚ} (h : (10 : ℝ) ^ ((q : ℝ)) = ((r : ℝ))) :
    ∃ m : ℤ, q = (m : ℚ) := by
  have hrpos : 0 < r := by
    have : (0 : ℝ) < ((r : ℝ)) := h ▸ Real.rpow_pos_of_pos (by norm_num) _
    exact_mod_cast this
  have hN : 0 < q.den := q.pos
  have hmul : (q : ℝ) * ((q.den : ℕ) : ℝ) = ((q.num : ℤ) : ℝ) := by
    have hq : ((q.num : ℚ)) / ((q.den : ℚ)) = q := Rat.num_div_den q
    have hd : ((q.den : ℚ)) ≠ 0 := by
      exact_mod_cast hN.ne'
    have : ((q.num : ℚ)) = q * ((q.den : ℚ)) := (div_eq_iff hd).mp hq
    exact_mod_cast this.symm
  have hpow : ((r : ℝ)) ^ (q.den : ℕ) = (10 : ℝ) ^ (q.num : ℤ) := by
    rw [← h, ← Real.rpow_natCast ((10 : ℝ) ^ ((q : ℝ))) q.den,
      ← Real.rpow_mul (by norm_num), hmul, Real.rpow_intCast]
  have hQ : r ^ (q.den : ℕ) = (10 : ℚ) ^ (q.num : ℤ) := by
    have hcast : ((r ^ (q.den : ℕ) : ℚ) : ℝ) = (((10 : ℚ) ^ (q.num : ℤ) : ℚ) : ℝ) := by
      rw [Rat.cast_zpow]
      push_cast
      exact hpow
    exact_mod_cast hcast
  have hdvd : q.den ∣ q.num.natAbs := by
    rcases le_or_lt 0 q.num with hp | hp
    · have hptn : ((q.num.toNat : ℤ)) = q.num := Int.toNat_of_nonneg hp
      have : r ^ (q.den : ℕ) = (10 : ℚ) ^ (q.num.toNat : ℕ) := by
        rw [hQ, ← zpow_natCast (10 : ℚ) q.num.toNat, hptn]
      have hd := rat_pow_eq_ten_pow_dvd r hrpos q.den q.num.toNat hN this
      have : q.num.natAbs = q.num.toNat := by omega
      rwa [this]
    · have hneg : (0 : ℤ) ≤ -q.num := by omega
      have hptn : (((-q.num).toNat : ℤ)) = -q.num := Int.toNat_of_nonneg hneg
      have hinv : r⁻¹ ^ (q.den : ℕ) = (10 : ℚ) ^ ((-q.num).toNat : ℕ) := by
        rw [inv_pow, hQ, ← zpow_natCast (10 : ℚ) (-q.num).toNat, hptn, zpow_neg]
      have hd := rat_pow_eq_ten_pow_dvd r⁻¹ (by positivity) q.den (-q.num).toNat hN hinv
      have : q.num.natAbs = (-q.num).toNat := by omega
      rwa [this]
  have hden1 : q.den = 1 := by
    have hco : Nat.Coprime q.num.natAbs q.den := q.reduced
    have hg : q.den ∣ 1 := hco ▸ Nat.dvd_gcd hdvd dvd_rfl
    exact Nat.dvd_one.mp hg
  refine ⟨q.num, ?_⟩
  rw [← Rat.num_div_den q, hden1]
  simp

theorem int_mul_ten_pow_succ_eq_sixtyfour (m : ℤ) (n : ℕ)
    (hz : (-(2 * m + 1)) * ((10 : ℤ) ^ n + 1) = 64) : False := by
  have hpow : (0 : ℤ) < 10 ^ n := pow_pos (by norm_num) n
  rcases Nat.lt_or_ge n 2 with hn | hn
  · interval_cases n
    · norm_num at hz; omega
    · norm_num at hz; omega
  · have h100 : (100 : ℤ) ≤ 10 ^ n := by
      calc (100 : ℤ) = 10 ^ 2 := by norm_num
      _ ≤ 10 ^ n := pow_le_pow_right₀ (by norm_num) hn
    rcases le_or_lt (-(2 * m + 1)) 0 with hj | hj
    · nlinarith
    · have hj1 : (1 : ℤ) ≤ -(2 * m + 1) := hj
      nlinarith

theorem int_mul_ten_pow_succ_eq_sixtyfour_mul (m : ℤ) (n : ℕ) (hn : 1 ≤ n)
    (hz : (-(2 * m + 1)) * ((10 : ℤ) ^ n + 1) = 64 * 10 ^ n) : False := by
  have hpow : (0 : ℤ) < 10 ^ n := pow_pos (by norm_num) n
  have hjpos : 0 < -(2 * m + 1) := by
    rcases le_or_lt (-(2 * m + 1)) 0 with hj | hj
    · nlinarith
    · exact hj
  have hznat : (-(2 * m + 1)).toNat * (10 ^ n + 1) = 64 * 10 ^ n := by
    have h1 : (((-(2 * m + 1)).toNat * (10 ^ n + 1) : ℕ) : ℤ) = ((64 * 10 ^ n : ℕ) : ℤ) := by
      push_cast
      rw [Int.toNat_of_nonneg hjpos.le]
      exact hz
    exact_mod_cast h1
  have hdvd : (10 ^ n + 1) ∣ 64 * 10 ^ n :=
    ⟨(-(2 * m + 1)).toNat, by rw [← hznat]; ring⟩
  have hdvd64 : (10 ^ n + 1) ∣ 64 :=
    (coprime_pow_ten_succ n).dvd_of_dvd_mul_right hdvd
  have hle : 10 ^ n + 1 ≤ 64 := Nat.le_of_dvd (by norm_num) hdvd64
  have hn1 : n = 1 := by
    rcases Nat.lt_or_ge n 2 with h2 | h2
    · omega
    · have : (100 : ℕ) ≤ 10 ^ n := by
        calc (100 : ℕ) = 10 ^ 2 := by norm_num
        _ ≤ 10 ^ n := Nat.pow_le_pow_right (by norm_num) h2
      omega
  rw [hn1] at hdvd64
  norm_num at hdvd64

theorem fract_ratingChange_ne_half (q : ℚ) (s : ℤ) :
    Int.fract ((32 : ℝ) * (((s : ℝ)) - 1 / (1 + (10 : ℝ) ^ ((q : ℝ))))) ≠ 1 / 2 := by
  have ht0 : 0 < (10 : ℝ) ^ ((q : ℝ)) := Real.rpow_pos_of_pos (by norm_num) _
  set t : ℝ := (10 : ℝ) ^ ((q : ℝ)) with ht
  have h1t : (0 : ℝ) < 1 + t := by linarith
  have heq : (32 : ℝ) * (((s : ℝ)) - 1 / (1 + t)) =
      (((32 * s : ℤ)) : ℝ) + -(32 / (1 + t)) := by push_cast; ring
  rw [heq, Int.fract_int_add]
  intro hc
  have hfl : ((⌊-(32 / (1 + t))⌋ : ℝ)) + 1 / 2 = -(32 / (1 + t)) := by
    have hff := Int.floor_add_fract (-(32 / (1 + t)))
    rw [hc] at hff
    exact hff
  set m : ℤ := ⌊-(32 / (1 + t))⌋ with hm
  have hprod : (-(((m : ℝ)) + 1 / 2)) * (1 + t) = 32 := by
    have h32 : 32 / (1 + t) = -(((m : ℝ)) + 1 / 2) := by linarith
    rw [← h32]
    field_simp
  have hcpos : (0 : ℝ) < -(((m : ℝ)) + 1 / 2) := by
    have hpos : (0 : ℝ) < 32 / (1 + t) := by positivity
    linarith
  have hcq : (((-((m : ℚ) + 1 / 2)) : ℚ) : ℝ) = -(((m : ℝ)) + 1 / 2) := by
    push_cast; ring
  have hcqne : (-((m : ℚ) + 1 / 2)) ≠ 0 := by
    intro h0
    rw [h0] at hcq
    rw [← hcq] at hcpos
    norm_num at hcpos
  have htq : t = ((((32 - (-((m : ℚ) + 1 / 2))) / (-((m : ℚ) + 1 / 2))) : ℚ) : ℝ) := by
    have hcast : ((((32 - (-((m : ℚ) + 1 / 2))) / (-((m : ℚ) + 1 / 2))) : ℚ) : ℝ) =
        (32 - (-(((m : ℝ)) + 1 / 2))) / (-(((m : ℝ)) + 1 / 2)) := by
      push_cast; ring_nf
    rw [hcast, eq_div_iff (ne_of_gt hcpos)]
    linear_combination hprod
  obtain ⟨mz, hqz⟩ := rpow_ten_rat_eq_rat (r := (32 - (-((m : ℚ) + 1 / 2))) / (-((m : ℚ) + 1 / 2)))
    (by rw [← ht]; exact htq)
  have htzpow : t = ((((10 : ℚ) ^ (mz : ℤ)) : ℚ) : ℝ) := by
    rw [ht, hqz, Rat.cast_zpow]
    push_cast
    rw [Real.rpow_intCast]
  have hrq : ((32 - (-((m : ℚ) + 1 / 2))) / (-((m : ℚ) + 1 / 2))) = (10 : ℚ) ^ (mz : ℤ) := by
    have := htq.symm.trans htzpow
    exact_mod_cast this
  have hprodQ : (-((m : ℚ) + 1 / 2)) * (1 + (10 : ℚ) ^ (mz : ℤ)) = 32 := by
    have hdiv : (32 - (-((m : ℚ) + 1 / 2))) = (10 : ℚ) ^ (mz : ℤ) * (-((m : ℚ) + 1 / 2)) :=
      (div_eq_iff hcqne).mp hrq
    linear_combination -hdiv
  have hint : ((-(2 * m + 1) : ℤ) : ℚ) * (1 + (10 : ℚ) ^ (mz : ℤ)) = 64 := by
    push_cast
    linear_combination 2 * hprodQ
  rcases le_or_lt 0 mz with hmz | hmz
  · have hzn : ((mz.toNat : ℤ)) = mz := Int.toNat_of_nonneg hmz
    have hnat : (10 : ℚ) ^ (mz : ℤ) = ((((10 : ℤ) ^ mz.toNat) : ℤ) : ℚ) := by
      have h1 : (10 : ℚ) ^ (mz : ℤ) = (10 : ℚ) ^ (mz.toNat : ℕ) := by
        rw [← zpow_natCast (10 : ℚ) mz.toNat, hzn]
      rw [h1]
      push_cast
      ring
    rw [hnat] at hint
    have hz : (-(2 * m + 1)) * (1 + (10 : ℤ) ^ mz.toNat) = 64 := by
      exact_mod_cast hint
    have hz2 : (-(2 * m + 1)) * ((10 : ℤ) ^ mz.toNat + 1) = 64 := by
      linear_combination hz
    exact int_mul_ten_pow_succ_eq_sixtyfour m mz.toNat hz2
  · have hneg : (0 : ℤ) ≤ -mz := by omega
    have hzn : (((-mz).toNat : ℤ)) = -mz := Int.toNat_of_nonneg hneg
    have hn1 : 1 ≤ (-mz).toNat := by omega
    have hnat : (10 : ℚ) ^ (mz : ℤ) = ((((10 : ℤ) ^ (-mz).toNat) : ℤ) : ℚ)⁻¹ := by
      have h1 : (10 : ℚ) ^ (mz : ℤ) = ((10 : ℚ) ^ ((-mz).toNat : ℕ))⁻¹ := by
        rw [← zpow_natCast (10 : ℚ) (-mz).toNat, ← zpow_neg, hzn, neg_neg]
      rw [h1]
      push_cast
      ring
    rw [hnat] at hint
    have hpowQ : (((((10 : ℤ) ^ (-mz).toNat) : ℤ) : ℚ)) ≠ 0 := by
      have : (0 : ℤ) < 10 ^ (-mz).toNat := pow_pos (by norm_num) _
      exact_mod_cast this.ne'
    have hKK : ((((10 : ℤ) ^ (-mz).toNat : ℤ) : ℚ)) * ((((10 : ℤ) ^ (-mz).toNat : ℤ) : ℚ))⁻¹ = 1 :=
      mul_inv_cancel₀ hpowQ
    have hq2 : ((-(2 * m + 1) : ℤ) : ℚ) * (((((10 : ℤ) ^ (-mz).toNat) : ℤ) : ℚ) + 1) =
        64 * ((((10 : ℤ) ^ (-mz).toNat) : ℤ) : ℚ) := by
      linear_combination ((((10 : ℤ) ^ (-mz).toNat : ℤ) : ℚ)) * hint -
        ((-(2 * m + 1) : ℤ) : ℚ) * hKK
    have hz : (-(2 * m + 1)) * ((10 : ℤ) ^ (-mz).toNat + 1) = 64 * 10 ^ (-mz).toNat := by
      exact_mod_cast hq2
    exact int_mul_ten_pow_succ_eq_sixtyfour_mul m (-mz).toNat hn1 hz

/-! ## Characterizing the team update -/

theorem update_elo_ratings_eq (a b : List ℝ) (ha : a ≠ []) (hb : b ≠ []) (w : Bool)
    (k : ℝ) :
    update_elo_ratings a b w k =
      some (a.map (fun rating => pyRound (rating + rating_changeR a b w k)),
            b.map (fun rating => pyRound (rating - rating_changeR a b w k)),
            pyRound (rating_changeR a b w k)) := by
  have ha' : ¬a.length = 0 := fun h => ha (List.length_eq_zero.mp h)
  have hb' : ¬b.length = 0 := fun h => hb (List.length_eq_zero.mp h)
  unfold update_elo_ratings calculate_team_rating rating_changeR
  rw [if_neg ha', if_neg hb']

theorem list_sum_intCast (l : List ℝ) (h : ∀ x ∈ l, ∃ n : ℤ, x = ((n : ℝ))) :
    ∃ s : ℤ, l.sum = ((s : ℝ)) := by
  induction l with
  | nil => exact ⟨0, by simp⟩
  | cons x t ih =>
    obtain ⟨n, hn⟩ := h x (by simp)
    obtain ⟨s, hs⟩ := ih (fun y hy => h y (by simp [hy]))
    exact ⟨n + s, by simp [hn, hs]⟩

theorem fract_rating_changeR_ne_half {a b : List ℝ}
    (hia : ∀ x ∈ a, ∃ n : ℤ, x = ((n : ℝ))) (hib : ∀ x ∈ b, ∃ n : ℤ, x = ((n : ℝ)))
    (w : Bool) : Int.fract (rating_changeR a b w 32) ≠ 1 / 2 := by
  obtain ⟨sa, hsa⟩ := list_sum_intCast a hia
  obtain ⟨sb, hsb⟩ := list_sum_intCast b hib
  have hexp : (b.sum / (b.length : ℝ) - a.sum / (a.length : ℝ)) / 400 =
      (((((sb : ℚ) / (b.length : ℚ) - ((sa : ℚ)) / (a.length : ℚ)) / 400 : ℚ)) : ℝ) := by
    rw [hsa, hsb]; push_cast; ring
  have hscore : (if w then (1 : ℝ) else 0) = (((if w then (1 : ℤ) else 0) : ℤ) : ℝ) := by
    cases w <;> simp
  have hrw : rating_changeR a b w 32 =
      (32 : ℝ) * ((((if w then (1 : ℤ) else 0) : ℤ) : ℝ) -
        1 / (1 + (10 : ℝ) ^
          ((((((sb : ℚ)) / (b.length : ℚ) - ((sa : ℚ)) / (a.length : ℚ)) / 400 : ℚ)) : ℝ))) := by
    unfold rating_changeR calculate_expected_score
    rw [hexp, hscore]
  rw [hrw]
  exact fract_ratingChange_ne_half _ _

theorem mem_map_intCast {a : List ℤ} :
    ∀ x ∈ a.map fun n : ℤ => ((n : ℝ)), ∃ n : ℤ, x = ((n : ℝ)) := by
  intro x hx
  rcases List.mem_map.mp hx with ⟨n, _, rfl⟩
  exact ⟨n, rfl⟩

theorem update_elo_ratings_intCast (a b : List ℤ) (ha : a ≠ []) (hb : b ≠ [])
    (w : Bool) :
    update_elo_ratings (a.map fun n : ℤ => ((n : ℝ))) (b.map fun n : ℤ => ((n : ℝ))) w 32 =
      some (a.map (fun n => n + pyRound (rating_changeR (a.map fun n : ℤ => ((n : ℝ)))
              (b.map fun n : ℤ => ((n : ℝ))) w 32)),
            b.map (fun n => n - pyRound (rating_changeR (a.map fun n : ℤ => ((n : ℝ)))
              (b.map fun n : ℤ => ((n : ℝ))) w 32)),
            pyRound (rating_changeR (a.map fun n : ℤ => ((n : ℝ)))
              (b.map fun n : ℤ => ((n : ℝ))) w 32)) := by
  have ha' : (a.map fun n : ℤ => ((n : ℝ))) ≠ [] := by
    simpa using ha
  have hb' : (b.map fun n : ℤ => ((n : ℝ))) ≠ [] := by
    simpa using hb
  have hfr := fract_rating_changeR_ne_half (mem_map_intCast (a := a))
    (mem_map_intCast (a := b)) w
  rw [update_elo_ratings_eq _ _ ha' hb' w 32, List.map_map, List.map_map]
  refine congrArg some ?_
  have h1 : a.map ((fun rating => pyRound (rating + rating_changeR
        (a.map fun n : ℤ => ((n : ℝ))) (b.map fun n : ℤ => ((n : ℝ))) w 32)) ∘
        fun n : ℤ => ((n : ℝ))) =
      a.map (fun n => n + pyRound (rating_changeR (a.map fun n : ℤ => ((n : ℝ)))
        (b.map fun n : ℤ => ((n : ℝ))) w 32)) :=
    List.map_congr_left fun n _ => by
      simp only [Function.comp_apply]
      exact pyRound_int_add hfr n
  have h2 : b.map ((fun rating => pyRound (rating - rating_changeR
        (a.map fun n : ℤ => ((n : ℝ))) (b.map fun n : ℤ => ((n : ℝ))) w 32)) ∘
        fun n : ℤ => ((n : ℝ))) =
      b.map (fun n => n - pyRound (rating_changeR (a.map fun n : ℤ => ((n : ℝ)))
        (b.map fun n : ℤ => ((n : ℝ))) w 32)) :=
    List.map_congr_left fun n _ => by
      simp only [Function.comp_apply]
      exact pyRound_int_sub hfr n
  rw [h1, h2]

/-! ## Characterizing the processors -/

theorem process_bulk_row_empty (s : AppState) (row : Row)
    (h : parse_team_string (pyStrip row.Team_A) = [] ∨
      parse_team_string (pyStrip row.Team_B) = []) :
    process_bulk_row s row = (s, none) := by
  simp only [process_bulk_row]
  rw [if_pos]
  rcases h with h | h <;> [left; right] <;> simp [h]

theorem process_bulk_row_invalid_winner (s : AppState) (row : Row)
    (ha : parse_team_string (pyStrip row.Team_A) ≠ [])
    (hb : parse_team_string (pyStrip row.Team_B) ≠ [])
    (hw1 : pyStrip row.Winner ≠ "Team_A") (hw2 : pyStrip row.Winner ≠ "Team_B") :
    process_bulk_row s row =
      (⟨initPlayers s.players (parse_team_string (pyStrip row.Team_A) ++
          parse_team_string (pyStrip row.Team_B)), s.match_history⟩, none) := by
  simp only [process_bulk_row]
  rw [if_neg, if_pos ⟨hw1, hw2⟩]
  rw [not_or]
  constructor <;> simpa [List.length_eq_zero]

theorem process_bulk_row_valid (s : AppState) (row : Row) (pa pb : List String)
    (tw : Bool) (d' : List (String × ℝ)) (rcR : ℝ)
    (hpa : pa = parse_team_string (pyStrip row.Team_A))
    (hpb : pb = parse_team_string (pyStrip row.Team_B))
    (hwin : pyStrip row.Winner = (if tw then "Team_A" else "Team_B"))
    (hd : d' = initPlayers s.players (pa ++ pb))
    (hrc : rcR = rating_changeR (pa.map (getRating d')) (pb.map (getRating d')) tw 32)
    (ha : pa ≠ []) (hb : pb ≠ []) :
    process_bulk_row s row =
      (⟨applyRatings (applyRatings d' pa (pa.map fun p => pyRound (getRating d' p + rcR)))
          pb (pb.map fun p => pyRound (getRating d' p - rcR)),
        s.match_history ++
          [⟨pyStrip row.Team_A, pyStrip row.Team_B, pyStrip row.Winner,
            if tw then pyRound rcR else -pyRound rcR,
            if tw then -pyRound rcR else pyRound rcR⟩]⟩,
       some ⟨pyStrip row.Team_A, pyStrip row.Team_B, pyStrip row.Winner,
         if tw then pyRound rcR else -pyRound rcR,
         if tw then -pyRound rcR else pyRound rcR⟩) := by
  have hma : pa.map (getRating d') ≠ [] := by simpa using ha
  have hmb : pb.map (getRating d') ≠ [] := by simpa using hb
  have hupd := update_elo_ratings_eq (pa.map (getRating d')) (pb.map (getRating d'))
    hma hmb tw 32
  rw [← hrc] at hupd
  have hlen : ¬(pa.length = 0 ∨ pb.length = 0) := by
    rw [not_or]
    constructor <;> simpa [List.length_eq_zero]
  cases tw
  · simp only [Bool.false_eq_true, if_false] at hwin
    simp only [process_bulk_row]
    rw [hwin, ← hpa, ← hpb, ← hd]
    rw [if_neg hlen, if_neg (fun hc => hc.2 rfl)]
    rw [show decide (("Team_B" : String) = "Team_A") = false from by decide]
    rw [hupd]
    simp only [List.map_map]
    simp [Function.comp_def]
  · simp only [if_true] at hwin
    simp only [process_bulk_row]
    rw [hwin, ← hpa, ← hpb, ← hd]
    rw [if_neg hlen, if_neg (fun hc => hc.1 rfl)]
    rw [show decide (("Team_A" : String) = "Team_A") = true from by decide]
    rw [hupd]
    simp only [List.map_map]
    simp [Function.comp_def]

theorem process_quick_entry_rejected (s : AppState) (ta tb : String) (w : Bool)
    (h : ta = "" ∨ tb = "" ∨ parse_team_string ta = [] ∨ parse_team_string tb = []) :
    process_quick_entry s ta tb w = (s, none) := by
  simp only [process_quick_entry]
  rcases h with h | h | h | h
  · rw [if_pos (Or.inl h)]
  · rw [if_pos (Or.inr h)]
  · by_cases he : ta = "" ∨ tb = ""
    · rw [if_pos he]
    · rw [if_neg he, if_pos (Or.inl (by simp [h]))]
  · by_cases he : ta = "" ∨ tb = ""
    · rw [if_pos he]
    · rw [if_neg he, if_pos (Or.inr (by simp [h]))]

theorem process_quick_entry_valid (s : AppState) (ta tb : String) (tw : Bool)
    (pa pb : List String) (d' : List (String × ℝ)) (rcR : ℝ)
    (hpa : pa = parse_team_string ta) (hpb : pb = parse_team_string tb)
    (hd : d' = initPlayers s.players (pa ++ pb))
    (hrc : rcR = rating_changeR (pa.map (getRating d')) (pb.map (getRating d')) tw 32)
    (hta : ta ≠ "") (htb : tb ≠ "") (ha : pa ≠ []) (hb : pb ≠ []) :
    process_quick_entry s ta tb tw =
      (⟨applyRatings (applyRatings d' pa (pa.map fun p => pyRound (getRating d' p + rcR)))
          pb (pb.map fun p => pyRound (getRating d' p - rcR)),
        s.match_history ++
          [⟨ta, tb, if tw then "Team_A" else "Team_B",
            if tw then pyRound rcR else -pyRound rcR,
            if tw then -pyRound rcR else pyRound rcR⟩]⟩,
       some ⟨ta, tb, if tw then "Team_A" else "Team_B",
         if tw then pyRound rcR else -pyRound rcR,
         if tw then -pyRound rcR else pyRound rcR⟩) := by
  have hma : pa.map (getRating d') ≠ [] := by simpa using ha
  have hmb : pb.map (getRating d') ≠ [] := by simpa using hb
  have hupd := update_elo_ratings_eq (pa.map (getRating d')) (pb.map (getRating d'))
    hma hmb tw 32
  rw [← hrc] at hupd
  have hlen : ¬(pa.length = 0 ∨ pb.length = 0) := by
    rw [not_or]
    constructor <;> simpa [List.length_eq_zero]
  simp only [process_quick_entry]
  rw [if_neg (by rw [not_or]; exact ⟨hta, htb⟩), ← hpa, ← hpb, if_neg hlen, ← hd, hupd]
  simp only [List.map_map]
  simp [Function.comp_def]

/-! ## Lemmas about batch processing -/

theorem process_batch_nil (s : AppState) : process_batch s [] = (s, [], 0) := rfl

theorem process_batch_cons_skip {s s' : AppState} {row : Row} (rows : List Row)
    (h : process_bulk_row s row = (s', none)) :
    process_batch s (row :: rows) =
      ((process_batch s' rows).1, (process_batch s' rows).2.1,
        (process_batch s' rows).2.2 + 1) := by
  simp only [process_batch, h]

theorem process_batch_cons_ok {s s' : AppState} {row : Row} {rec : MatchRecord}
    (rows : List Row) (h : process_bulk_row s row = (s', some rec)) :
    process_batch s (row :: rows) =
      ((process_batch s' rows).1, rec :: (process_batch s' rows).2.1,
        (process_batch s' rows).2.2) := by
  simp only [process_batch, h]

theorem process_batch_append (s : AppState) (rows1 rows2 : List Row) :
    process_batch s (rows1 ++ rows2) =
      ((process_batch (process_batch s rows1).1 rows2).1,
       (process_batch s rows1).2.1 ++ (process_batch (process_batch s rows1).1 rows2).2.1,
       (process_batch s rows1).2.2 + (process_batch (process_batch s rows1).1 rows2).2.2) := by
  induction rows1 generalizing s with
  | nil => simp [process_batch]
  | cons r rs ih =>
    rcases hr : process_bulk_row s r with ⟨s', rec⟩
    cases rec with
    | none =>
      rw [List.cons_append, process_batch_cons_skip (rs ++ rows2) hr,
        process_batch_cons_skip rs hr, ih]
      simp [Nat.add_assoc, Nat.add_comm, Nat.add_left_comm]
    | some rec =>
      rw [List.cons_append, process_batch_cons_ok (rs ++ rows2) hr,
        process_batch_cons_ok rs hr, ih]
      simp

theorem dictLookup_initPlayers_not_mem (d : List (String × ℝ)) (ps : List String)
    (q : String) (h : q ∉ ps) :
    dictLookup (initPlayers d ps) q = dictLookup d q := by
  rw [dictLookup_initPlayers]
  cases hq : dictLookup d q <;> simp [hq, h]

theorem dictLookup_initPlayers_isSome_of_mem (d : List (String × ℝ)) (ps : List String)
    (q : String) (h : q ∈ ps) :
    (dictLookup (initPlayers d ps) q).isSome := by
  rw [dictLookup_initPlayers]
  cases hq : dictLookup d q <;> simp [hq, h]

theorem integerValued_process_bulk_row {s : AppState} (hs : IntegerValued s.players)
    (row : Row) : IntegerValued (process_bulk_row s row).1.players := by
  by_cases ha : parse_team_string (pyStrip row.Team_A) = []
  · rw [process_bulk_row_empty s row (Or.inl ha)]
    exact hs
  by_cases hb : parse_team_string (pyStrip row.Team_B) = []
  · rw [process_bulk_row_empty s row (Or.inr hb)]
    exact hs
  by_cases hw : pyStrip row.Winner = "Team_A" ∨ pyStrip row.Winner = "Team_B"
  · rcases hw with hw | hw
    · rw [process_bulk_row_valid s row _ _ true _ _ rfl rfl (by simp [hw]) rfl rfl ha hb]
      exact integerValued_applyRatings
        (integerValued_applyRatings (integerValued_initPlayers hs _) _ _) _ _
    · rw [process_bulk_row_valid s row _ _ false _ _ rfl rfl (by simp [hw]) rfl rfl ha hb]
      exact integerValued_applyRatings
        (integerValued_applyRatings (integerValued_initPlayers hs _) _ _) _ _
  · rw [not_or] at hw
    rw [process_bulk_row_invalid_winner s row ha hb hw.1 hw.2]
    exact integerValued_initPlayers hs _

theorem integerValued_process_quick_entry {s : AppState} (hs : IntegerValued s.players)
    (ta tb : String) (tw : Bool) :
    IntegerValued (process_quick_entry s ta tb tw).1.players := by
  by_cases hta : ta = ""
  · rw [process_quick_entry_rejected s ta tb tw (Or.inl hta)]
    exact hs
  by_cases htb : tb = ""
  · rw [process_quick_entry_rejected s ta tb tw (Or.inr (Or.inl htb))]
    exact hs
  by_cases ha : parse_team_string ta = []
  · rw [process_quick_entry_rejected s ta tb tw (Or.inr (Or.inr (Or.inl ha)))]
    exact hs
  by_cases hb : parse_team_string tb = []
  · rw [process_quick_entry_rejected s ta tb tw (Or.inr (Or.inr (Or.inr hb)))]
    exact hs
  · rw [process_quick_entry_valid s ta tb tw _ _ _ _ rfl rfl rfl rfl hta htb ha hb]
    exact integerValued_applyRatings
      (integerValued_applyRatings (integerValued_initPlayers hs _) _ _) _ _

theorem integerValued_process_batch {s : AppState} (hs : IntegerValued s.players)
    (rows : List Row) : IntegerValued (process_batch s rows).1.players := by
  induction rows generalizing s with
  | nil => exact hs
  | cons row rs ih =>
    rcases hr : process_bulk_row s row with ⟨s', rec⟩
    have hs' : IntegerValued s'.players := by
      have := integerValued_process_bulk_row hs row
      rwa [hr] at this
    cases rec with
    | none => rw [process_batch_cons_skip rs hr]; exact ih hs'
    | some rec => rw [process_batch_cons_ok rs hr]; exact ih hs'

/-! ## Concrete evaluation helpers -/

theorem calculate_expected_score_self (r : ℝ) : calculate_expected_score r r = 1 / 2 := by
  unfold calculate_expected_score
  rw [sub_self, zero_div, Real.rpow_zero]
  norm_num

theorem rating_changeR_of_avg_eq {a b : List ℝ}
    (h : a.sum / (a.length : ℝ) = b.sum / (b.length : ℝ)) (tw : Bool) :
    rating_changeR a b tw 32 = if tw then 16 else -16 := by
  unfold rating_changeR
  rw [h, calculate_expected_score_self]
  cases tw <;> norm_num

/-! ## The claims -/

/-- C1: the spec says the MatchRecord stores a positive rating change for the
winning side and a negative one for the losing side.  The code computes
`rating_change` already signed (negative when Team B wins) and then flips its
sign again when building `match_info`, so when Team B wins the record shows a
positive change for the losing Team A and a negative change for the winning
Team B.  Exhibit: fresh players Alice vs Bob, Team B wins; the store moves
Bob 1400 → 1416 and Alice 1400 → 1384, yet the record says Team A changed by
+16 and Team B by -16. -/
theorem claim_C1_record_misreports_winner_sign :
    process_quick_entry initialState "Alice" "Bob" false =
      (⟨[("Alice", ((1384 : ℤ) : ℝ)), ("Bob", ((1416 : ℤ) : ℝ))],
        [⟨"Alice", "Bob", "Team_B", 16, -16⟩]⟩,
       some ⟨"Alice", "Bob", "Team_B", 16, -16⟩) := by
  have hpa : ["Alice"] = parse_team_string "Alice" := by decide
  have hpb : ["Bob"] = parse_team_string "Bob" := by decide
  have hAB : ("Alice" : String) ≠ "Bob" := by decide
  have hinit : initPlayers initialState.players (["Alice"] ++ ["Bob"]) =
      [("Alice", 1400), ("Bob", 1400)] := by
    simp [initPlayers, initialState, dictLookup]
  have hgA : getRating [("Alice", (1400 : ℝ)), ("Bob", 1400)] "Alice" = 1400 := by
    simp [getRating, dictLookup]
  have hgB : getRating [("Alice", (1400 : ℝ)), ("Bob", 1400)] "Bob" = 1400 := by
    simp [getRating, dictLookup, hAB]
  have hrc : rating_changeR
      ((["Alice"]).map (getRating (initPlayers initialState.players (["Alice"] ++ ["Bob"]))))
      ((["Bob"]).map (getRating (initPlayers initialState.players (["Alice"] ++ ["Bob"]))))
      false 32 = -16 := by
    rw [hinit]
    simp only [List.map_cons, List.map_nil, hgA, hgB]
    rw [rating_changeR_of_avg_eq (by norm_num) false]
    norm_num
  have hval := process_quick_entry_valid initialState "Alice" "Bob" false
    ["Alice"] ["Bob"]
    (initPlayers initialState.players (["Alice"] ++ ["Bob"]))
    (rating_changeR
      ((["Alice"]).map (getRating (initPlayers initialState.players (["Alice"] ++ ["Bob"]))))
      ((["Bob"]).map (getRating (initPlayers initialState.players (["Alice"] ++ ["Bob"]))))
      false 32)
    hpa hpb rfl rfl (by decide) (by decide) (by decide) (by decide)
  rw [hrc, hinit] at hval
  have hp1 : pyRound ((1400 : ℝ) + -16) = 1384 := pyRound_eq_of_eq_intCast (by norm_num)
  have hp2 : pyRound ((1400 : ℝ) - -16) = 1416 := pyRound_eq_of_eq_intCast (by norm_num)
  have hpr : pyRound ((-16 : ℝ)) = -16 := pyRound_eq_of_eq_intCast (by norm_num)
  rw [hval]
  simp only [List.map_cons, List.map_nil, hgA, hgB, hp1, hp2, hpr]
  simp [applyRatings, dictSet, initialState, hAB]

/-- C2 counterexample: the claim says a skipped invalid-winner row causes no
mutation of the RatingStore and in particular inserts no new players.  But the
bulk loop initializes players before validating the winner token: a batch
consisting of the single row `X vs Y, winner Team_C` is skipped (no record,
one skip) yet inserts the never-seen player X at 1400. -/
theorem claim_C2_counterexample :
    (process_batch initialState [⟨"X", "Y", "Team_C"⟩]).2.1 = [] ∧
    (process_batch initialState [⟨"X", "Y", "Team_C"⟩]).2.2 = 1 ∧
    dictLookup initialState.players "X" = none ∧
    dictLookup (process_batch initialState [⟨"X", "Y", "Team_C"⟩]).1.players "X" =
      some 1400 := by
  have hrow := process_bulk_row_invalid_winner initialState ⟨"X", "Y", "Team_C"⟩
    (by decide) (by decide) (by decide) (by decide)
  have hskip := process_batch_cons_skip [] hrow
  simp only [process_batch_nil] at hskip
  refine ⟨by rw [hskip], by rw [hskip], rfl, ?_⟩
  rw [hskip]
  rw [dictLookup_initPlayers]
  rw [show dictLookup initialState.players "X" = none from rfl]
  simp only [Option.isSome_none, Bool.false_eq_true, if_false]
  rw [if_pos (by decide)]

/-- C2 (corrected): for every batch row whose parsed teams are non-empty and
whose winner token is not `Team_A`/`Team_B`, the row is skipped (reported via
the skip count), no record is appended, the batch continues with the remaining
rows, and no existing rating changes — but, because the source initializes
players before validating the winner, players named on the skipped row that
were not yet in the store are inserted at 1400. -/
theorem claim_C2_amended (s : AppState) (row : Row) (rs : List Row)
    (ha : parse_team_string (pyStrip row.Team_A) ≠ [])
    (hb : parse_team_string (pyStrip row.Team_B) ≠ [])
    (hw1 : pyStrip row.Winner ≠ "Team_A") (hw2 : pyStrip row.Winner ≠ "Team_B") :
    process_bulk_row s row =
      (⟨initPlayers s.players (parse_team_string (pyStrip row.Team_A) ++
          parse_team_string (pyStrip row.Team_B)), s.match_history⟩, none) ∧
    (∀ p r, dictLookup s.players p = some r →
      dictLookup (process_bulk_row s row).1.players p = some r) ∧
    (∀ p, dictLookup s.players p = none →
      p ∈ parse_team_string (pyStrip row.Team_A) ++ parse_team_string (pyStrip row.Team_B) →
      dictLookup (process_bulk_row s row).1.players p = some 1400) ∧
    (process_batch s (row :: rs)).1 = (process_batch (process_bulk_row s row).1 rs).1 ∧
    (process_batch s (row :: rs)).2.1 = (process_batch (process_bulk_row s row).1 rs).2.1 ∧
    (process_batch s (row :: rs)).2.2 =
      (process_batch (process_bulk_row s row).1 rs).2.2 + 1 := by
  have hrow := process_bulk_row_invalid_winner s row ha hb hw1 hw2
  have hskip := process_batch_cons_skip rs hrow
  refine ⟨hrow, ?_, ?_, ?_, ?_, ?_⟩
  · intro p r hp
    rw [hrow, dictLookup_initPlayers, hp]
    simp
  · intro p hp hmem
    rw [hrow, dictLookup_initPlayers, hp]
    simp [hmem]
  · rw [hskip, hrow]
  · rw [hskip, hrow]
  · rw [hskip, hrow]

/-- C2 witness: the amended statement at the concrete skipped row
`X vs Y, winner Team_C` from the empty initial state with an empty rest of
the batch. -/
theorem claim_C2_witness :
    parse_team_string (pyStrip "X") ≠ [] ∧ parse_team_string (pyStrip "Y") ≠ [] ∧
    pyStrip "Team_C" ≠ "Team_A" ∧ pyStrip "Team_C" ≠ "Team_B" ∧
    (process_bulk_row initialState ⟨"X", "Y", "Team_C"⟩ =
      (⟨initPlayers initialState.players (parse_team_string (pyStrip "X") ++
          parse_team_string (pyStrip "Y")), initialState.match_history⟩, none) ∧
     (∀ p r, dictLookup initialState.players p = some r →
       dictLookup (process_bulk_row initialState ⟨"X", "Y", "Team_C"⟩).1.players p = some r) ∧
     (∀ p, dictLookup initialState.players p = none →
       p ∈ parse_team_string (pyStrip "X") ++ parse_team_string (pyStrip "Y") →
       dictLookup (process_bulk_row initialState ⟨"X", "Y", "Team_C"⟩).1.players p =
         some 1400) ∧
     (process_batch initialState [⟨"X", "Y", "Team_C"⟩]).1 =
       (process_batch (process_bulk_row initialState ⟨"X", "Y", "Team_C"⟩).1 []).1 ∧
     (process_batch initialState [⟨"X", "Y", "Team_C"⟩]).2.1 =
       (process_batch (process_bulk_row initialState ⟨"X", "Y", "Team_C"⟩).1 []).2.1 ∧
     (process_batch initialState [⟨"X", "Y", "Team_C"⟩]).2.2 =
       (process_batch (process_bulk_row initialState ⟨"X", "Y", "Team_C"⟩).1 []).2.2 + 1) :=
  ⟨by decide, by decide, by decide, by decide,
   claim_C2_amended initialState ⟨"X", "Y", "Team_C"⟩ []
     (by decide) (by decide) (by decide) (by decide)⟩

/-- C3: for every pair of non-empty integer rating lists, either winner and
k = 32, there is one shared integer delta — the rounded rating change, which
is also the reported magnitude — with every member of team A changed by
exactly `+delta` and every member of team B by exactly `-delta`. -/
theorem claim_C3_shared_delta (a b : List ℤ) (ha : a ≠ []) (hb : b ≠ [])
    (w : Bool) :
    ∃ (delta : ℤ) (na nb : List ℤ),
      update_elo_ratings (a.map fun n : ℤ => ((n : ℝ)))
          (b.map fun n : ℤ => ((n : ℝ))) w 32 = some (na, nb, delta) ∧
      na = a.map (fun x => x + delta) ∧ nb = b.map (fun x => x - delta) :=
  ⟨pyRound (rating_changeR (a.map fun n : ℤ => ((n : ℝ)))
      (b.map fun n : ℤ => ((n : ℝ))) w 32), _, _,
    update_elo_ratings_intCast a b ha hb w, rfl, rfl⟩

/-- C3 witness: the 1v1 update at ratings 1400 vs 1400 with team A winning. -/
theorem claim_C3_witness :
    (([1400] : List ℤ) ≠ [] ∧ ([1400] : List ℤ) ≠ []) ∧
    ∃ (delta : ℤ) (na nb : List ℤ),
      update_elo_ratings (([1400] : List ℤ).map fun n : ℤ => ((n : ℝ)))
          (([1400] : List ℤ).map fun n : ℤ => ((n : ℝ))) true 32 =
        some (na, nb, delta) ∧
      na = ([1400] : List ℤ).map (fun x => x + delta) ∧
      nb = ([1400] : List ℤ).map (fun x => x - delta) :=
  ⟨⟨by decide, by decide⟩, claim_C3_shared_delta [1400] [1400] (by decide) (by decide) true⟩

/-- C4: batch processing applies rows strictly in input order: processing
`rows1 ++ rows2` first folds the state through `rows1` and then processes
`rows2` from the resulting store, concatenating the applied records and
adding the skip counts; and processing `row :: rows` processes `row` against
the current store and threads the mutated store into the rest, so each
match's before-ratings are read after all earlier matches were applied. -/
theorem claim_C4_batch_order :
    (∀ (s : AppState) (rows1 rows2 : List Row),
      process_batch s (rows1 ++ rows2) =
        ((process_batch (process_batch s rows1).1 rows2).1,
         (process_batch s rows1).2.1 ++
           (process_batch (process_batch s rows1).1 rows2).2.1,
         (process_batch s rows1).2.2 +
           (process_batch (process_batch s rows1).1 rows2).2.2)) ∧
    (∀ (s : AppState) (row : Row) (rows : List Row),
      process_batch s (row :: rows) =
        match process_bulk_row s row with
        | (s', some rec) => ((process_batch s' rows).1,
            rec :: (process_batch s' rows).2.1, (process_batch s' rows).2.2)
        | (s', none) => ((process_batch s' rows).1,
            (process_batch s' rows).2.1, (process_batch s' rows).2.2 + 1)) := by
  constructor
  · exact process_batch_append
  · intro s row rows
    rcases hr : process_bulk_row s row with ⟨s', rec⟩
    cases rec with
    | none => rw [process_batch_cons_skip rows hr]
    | some rec => rw [process_batch_cons_ok rows hr]

/-- C5: `calculate_team_rating` fails on the empty list (Python raises
`ZeroDivisionError`, embedded as `none` — it does not silently return 0 or
NaN) and returns the arithmetic mean on every non-empty list. -/
theorem claim_C5_team_rating (l : List ℝ) (hl : l ≠ []) :
    calculate_team_rating [] = none ∧
    calculate_team_rating l = some (l.sum / (l.length : ℝ)) := by
  constructor
  · simp [calculate_team_rating]
  · unfold calculate_team_rating
    rw [if_neg (fun h => hl (List.length_eq_zero.mp h))]

/-- C5 witness: the mean of `[2, 4]`. -/
theorem claim_C5_witness :
    ([(2 : ℝ), 4] ≠ []) ∧ calculate_team_rating [] = none ∧
    calculate_team_rating [(2 : ℝ), 4] =
      some (([(2 : ℝ), 4].sum) / (([(2 : ℝ), 4].length : ℕ) : ℝ)) :=
  ⟨by simp, (claim_C5_team_rating [(2 : ℝ), 4] (by simp)).1,
    (claim_C5_team_rating [(2 : ℝ), 4] (by simp)).2⟩

/-- C6: a match whose team string parses to zero players is rejected with no
mutation and no history append — in the bulk loop the row is skipped, counted,
and the remaining rows continue to be processed; in quick entry the submission
leaves the state untouched. -/
theorem claim_C6_empty_team (s : AppState) (row : Row) (rs : List Row)
    (ta tb : String) (w : Bool)
    (hrow : parse_team_string (pyStrip row.Team_A) = [] ∨
      parse_team_string (pyStrip row.Team_B) = [])
    (hq : parse_team_string ta = [] ∨ parse_team_string tb = []) :
    process_bulk_row s row = (s, none) ∧
    (process_batch s (row :: rs)).1 = (process_batch s rs).1 ∧
    (process_batch s (row :: rs)).2.1 = (process_batch s rs).2.1 ∧
    (process_batch s (row :: rs)).2.2 = (process_batch s rs).2.2 + 1 ∧
    process_quick_entry s ta tb w = (s, none) := by
  have hrow' := process_bulk_row_empty s row hrow
  have hskip := process_batch_cons_skip rs hrow'
  exact ⟨hrow', by rw [hskip], by rw [hskip], by rw [hskip],
    process_quick_entry_rejected s ta tb w (Or.inr (Or.inr hq))⟩

/-- C6 witness: the row `" , " vs Bob` (team A parses to zero players) at the
head of a batch, and the quick entry `"," vs Bob`. -/
theorem claim_C6_witness :
    (parse_team_string (pyStrip " , ") = [] ∨ parse_team_string (pyStrip "Bob") = []) ∧
    (parse_team_string "," = [] ∨ parse_team_string "Bob" = []) ∧
    (process_bulk_row initialState ⟨" , ", "Bob", "Team_A"⟩ = (initialState, none) ∧
     (process_batch initialState [⟨" , ", "Bob", "Team_A"⟩]).1 =
       (process_batch initialState []).1 ∧
     (process_batch initialState [⟨" , ", "Bob", "Team_A"⟩]).2.1 =
       (process_batch initialState []).2.1 ∧
     (process_batch initialState [⟨" , ", "Bob", "Team_A"⟩]).2.2 =
       (process_batch initialState []).2.2 + 1 ∧
     process_quick_entry initialState "," "Bob" true = (initialState, none)) :=
  ⟨by decide, by decide,
   claim_C6_empty_team initialState ⟨" , ", "Bob", "Team_A"⟩ [] "," "Bob" true
     (by decide) (by decide)⟩

/-- C7: the expected score is `1 / (1 + 10 ^ ((b - a) / 400))`, lies strictly
between 0 and 1, and the two orientations sum exactly to 1 over exact real
arithmetic. -/
theorem claim_C7_expected_score (a b : ℝ) :
    calculate_expected_score a b + calculate_expected_score b a = 1 ∧
    0 < calculate_expected_score a b ∧ calculate_expected_score a b < 1 ∧
    calculate_expected_score a b = 1 / (1 + (10 : ℝ) ^ ((b - a) / 400)) := by
  have ht : 0 < (10 : ℝ) ^ ((b - a) / 400) := Real.rpow_pos_of_pos (by norm_num) _
  have hinv : (10 : ℝ) ^ ((a - b) / 400) = ((10 : ℝ) ^ ((b - a) / 400))⁻¹ := by
    rw [show (a - b) / 400 = -((b - a) / 400) by ring, Real.rpow_neg (by norm_num)]
  refine ⟨?_, ?_, ?_, rfl⟩
  · unfold calculate_expected_score
    rw [hinv]
    have h2 : (10 : ℝ) ^ ((b - a) / 400) ≠ 0 := ne_of_gt ht
    have h1 : (0 : ℝ) < 1 + (10 : ℝ) ^ ((b - a) / 400) := by linarith
    field_simp
    ring
  · unfold calculate_expected_score
    have h1 : (0 : ℝ) < 1 + (10 : ℝ) ^ ((b - a) / 400) := by linarith
    positivity
  · unfold calculate_expected_score
    rw [div_lt_one (by linarith)]
    linarith

/-- C8: processing one valid match (either entry path) appends exactly one
record to the history and changes the ratings only of players listed on the
two participating teams: every other player's stored rating is unchanged. -/
theorem claim_C8_frame (s : AppState) (row : Row) (ta tb : String) (tw : Bool)
    (ha : parse_team_string (pyStrip row.Team_A) ≠ [])
    (hb : parse_team_string (pyStrip row.Team_B) ≠ [])
    (hw : pyStrip row.Winner = "Team_A" ∨ pyStrip row.Winner = "Team_B")
    (hta : ta ≠ "") (htb : tb ≠ "")
    (ha2 : parse_team_string ta ≠ []) (hb2 : parse_team_string tb ≠ []) :
    (∃ s' rec, process_bulk_row s row = (s', some rec) ∧
      s'.match_history = s.match_history ++ [rec] ∧
      ∀ p, p ∉ parse_team_string (pyStrip row.Team_A) →
        p ∉ parse_team_string (pyStrip row.Team_B) →
        dictLookup s'.players p = dictLookup s.players p) ∧
    (∃ s' rec, process_quick_entry s ta tb tw = (s', some rec) ∧
      s'.match_history = s.match_history ++ [rec] ∧
      ∀ p, p ∉ parse_team_string ta → p ∉ parse_team_string tb →
        dictLookup s'.players p = dictLookup s.players p) := by
  constructor
  · rcases hw with hw | hw
    · rw [process_bulk_row_valid s row _ _ true _ _ rfl rfl (by simp [hw]) rfl rfl ha hb]
      refine ⟨_, _, rfl, rfl, ?_⟩
      intro p hpa hpb
      rw [dictLookup_applyRatings_not_mem _ _ _ _ hpb,
        dictLookup_applyRatings_not_mem _ _ _ _ hpa,
        dictLookup_initPlayers_not_mem _ _ _ (by simp [hpa, hpb])]
    · rw [process_bulk_row_valid s row _ _ false _ _ rfl rfl (by simp [hw]) rfl rfl ha hb]
      refine ⟨_, _, rfl, rfl, ?_⟩
      intro p hpa hpb
      rw [dictLookup_applyRatings_not_mem _ _ _ _ hpb,
        dictLookup_applyRatings_not_mem _ _ _ _ hpa,
        dictLookup_initPlayers_not_mem _ _ _ (by simp [hpa, hpb])]
  · rw [process_quick_entry_valid s ta tb tw _ _ _ _ rfl rfl rfl rfl hta htb ha2 hb2]
    refine ⟨_, _, rfl, rfl, ?_⟩
    intro p hpa hpb
    rw [dictLookup_applyRatings_not_mem _ _ _ _ hpb,
      dictLookup_applyRatings_not_mem _ _ _ _ hpa,
      dictLookup_initPlayers_not_mem _ _ _ (by simp [hpa, hpb])]

/-- C8 witness: the valid match `Al vs Bo, Team A wins` through both paths. -/
theorem claim_C8_witness :
    (parse_team_string (pyStrip "Al") ≠ [] ∧ parse_team_string (pyStrip "Bo") ≠ [] ∧
     (pyStrip "Team_A" = "Team_A" ∨ pyStrip "Team_A" = "Team_B") ∧
     ("Al" : String) ≠ "" ∧ ("Bo" : String) ≠ "" ∧
     parse_team_string "Al" ≠ [] ∧ parse_team_string "Bo" ≠ []) ∧
    ((∃ s' rec, process_bulk_row initialState ⟨"Al", "Bo", "Team_A"⟩ = (s', some rec) ∧
       s'.match_history = initialState.match_history ++ [rec] ∧
       ∀ p, p ∉ parse_team_string (pyStrip "Al") → p ∉ parse_team_string (pyStrip "Bo") →
         dictLookup s'.players p = dictLookup initialState.players p) ∧
     (∃ s' rec, process_quick_entry initialState "Al" "Bo" true = (s', some rec) ∧
       s'.match_history = initialState.match_history ++ [rec] ∧
       ∀ p, p ∉ parse_team_string "Al" → p ∉ parse_team_string "Bo" →
         dictLookup s'.players p = dictLookup initialState.players p)) :=
  ⟨⟨by decide, by decide, by decide, by decide, by decide, by decide, by decide⟩,
   claim_C8_frame initialState ⟨"Al", "Bo", "Team_A"⟩ "Al" "Bo" true
     (by decide) (by decide) (by decide) (by decide) (by decide) (by decide) (by decide)⟩

/-- C9: in every reachable session state all stored ratings are integers:
players enter the store at the integer 1400 and every later write stores a
rounded (hence integer) value. -/
theorem claim_C9_integer_ratings (s : AppState) (h : Reach s) :
    IntegerValued s.players := by
  induction h with
  | init => exact integerValued_nil
  | quick s ta tb w _ ih => exact integerValued_process_quick_entry ih ta tb w
  | bulk s rows _ ih => exact integerValued_process_batch ih rows
  | reset s _ _ => exact integerValued_nil

/-- C9 witness: the initial state is reachable and integer-valued. -/
theorem claim_C9_witness : Reach initialState ∧ IntegerValued initialState.players :=
  ⟨Reach.init, claim_C9_integer_ratings initialState Reach.init⟩

/-- Duplicate-member behaviour of the bulk path: for a player on both teams
of a valid bulk row over an integer-valued store, the final stored rating is
the team-B update `n - rc` of the pre-match (post-initialization) rating `n`,
the team-A write having been overwritten. -/
theorem process_bulk_row_duplicate_member (s : AppState) (row : Row) (p : String)
    (tw : Bool) (hs : IntegerValued s.players)
    (ha : parse_team_string (pyStrip row.Team_A) ≠ [])
    (hb : parse_team_string (pyStrip row.Team_B) ≠ [])
    (hwin : pyStrip row.Winner = (if tw then "Team_A" else "Team_B"))
    (hmem_a : p ∈ parse_team_string (pyStrip row.Team_A))
    (hmem_b : p ∈ parse_team_string (pyStrip row.Team_B)) :
    ∃ (s' : AppState) (rec : MatchRecord) (n rc : ℤ) (na nb : List ℤ),
      process_bulk_row s row = (s', some rec) ∧
      dictLookup (initPlayers s.players (parse_team_string (pyStrip row.Team_A) ++
        parse_team_string (pyStrip row.Team_B))) p = some ((n : ℝ)) ∧
      update_elo_ratings
        ((parse_team_string (pyStrip row.Team_A)).map (getRating (initPlayers s.players
          (parse_team_string (pyStrip row.Team_A) ++
            parse_team_string (pyStrip row.Team_B)))))
        ((parse_team_string (pyStrip row.Team_B)).map (getRating (initPlayers s.players
          (parse_team_string (pyStrip row.Team_A) ++
            parse_team_string (pyStrip row.Team_B)))))
        tw 32 = some (na, nb, rc) ∧
      dictLookup s'.players p = some (((n - rc : ℤ) : ℝ)) := by
  set pa := parse_team_string (pyStrip row.Team_A) with hpaeq
  set pb := parse_team_string (pyStrip row.Team_B) with hpbeq
  set d' := initPlayers s.players (pa ++ pb) with hdeq
  set rcR := rating_changeR (pa.map (getRating d')) (pb.map (getRating d')) tw 32 with hrceq
  have hd' : IntegerValued d' := integerValued_initPlayers hs _
  have hsome := dictLookup_initPlayers_isSome_of_mem s.players (pa ++ pb) p
    (List.mem_append_left pb hmem_a)
  rw [← hdeq] at hsome
  rcases Option.isSome_iff_exists.mp hsome with ⟨v, hv⟩
  rcases hd' p v hv with ⟨n, rfl⟩
  have hia : ∀ x ∈ pa.map (getRating d'), ∃ k : ℤ, x = ((k : ℝ)) := by
    intro x hx
    rcases List.mem_map.mp hx with ⟨q, hq, rfl⟩
    have hqs := dictLookup_initPlayers_isSome_of_mem s.players (pa ++ pb) q
      (List.mem_append_left pb hq)
    rw [← hdeq] at hqs
    rcases Option.isSome_iff_exists.mp hqs with ⟨u, hu⟩
    rcases hd' q u hu with ⟨k, rfl⟩
    exact ⟨k, by simp [getRating, hu]⟩
  have hib : ∀ x ∈ pb.map (getRating d'), ∃ k : ℤ, x = ((k : ℝ)) := by
    intro x hx
    rcases List.mem_map.mp hx with ⟨q, hq, rfl⟩
    have hqs := dictLookup_initPlayers_isSome_of_mem s.players (pa ++ pb) q
      (List.mem_append_right pa hq)
    rw [← hdeq] at hqs
    rcases Option.isSome_iff_exists.mp hqs with ⟨u, hu⟩
    rcases hd' q u hu with ⟨k, rfl⟩
    exact ⟨k, by simp [getRating, hu]⟩
  have hgp : getRating d' p = ((n : ℝ)) := by simp [getRating, hv]
  have hfr : Int.fract rcR ≠ 1 / 2 := by
    rw [hrceq]
    exact fract_rating_changeR_ne_half hia hib tw
  have hupdeq := update_elo_ratings_eq (pa.map (getRating d')) (pb.map (getRating d'))
    (by simpa using ha) (by simpa using hb) tw 32
  rw [← hrceq] at hupdeq
  rw [process_bulk_row_valid s row pa pb tw d' rcR hpaeq hpbeq hwin hdeq hrceq ha hb]
  refine ⟨_, _, n, pyRound rcR,
    (pa.map (getRating d')).map (fun rating => pyRound (rating + rcR)),
    (pb.map (getRating d')).map (fun rating => pyRound (rating - rcR)),
    rfl, hv, hupdeq, ?_⟩
  show dictLookup (applyRatings (applyRatings d' pa
      (pa.map fun q => pyRound (getRating d' q + rcR))) pb
      (pb.map fun q => pyRound (getRating d' q - rcR))) p = some (((n - pyRound rcR : ℤ) : ℝ))
  rw [dictLookup_applyRatings_map, if_pos hmem_b, hgp, pyRound_int_sub hfr]

/-- Duplicate-member behaviour of the quick-entry path: same statement as
for the bulk path, for a submitted form with the player on both teams. -/
theorem process_quick_entry_duplicate_member (s : AppState) (ta tb : String)
    (p : String) (tw : Bool) (hs : IntegerValued s.players)
    (hta : ta ≠ "") (htb : tb ≠ "")
    (ha : parse_team_string ta ≠ []) (hb : parse_team_string tb ≠ [])
    (hmem_a : p ∈ parse_team_string ta) (hmem_b : p ∈ parse_team_string tb) :
    ∃ (s' : AppState) (rec : MatchRecord) (n rc : ℤ) (na nb : List ℤ),
      process_quick_entry s ta tb tw = (s', some rec) ∧
      dictLookup (initPlayers s.players (parse_team_string ta ++
        parse_team_string tb)) p = some ((n : ℝ)) ∧
      update_elo_ratings
        ((parse_team_string ta).map (getRating (initPlayers s.players
          (parse_team_string ta ++ parse_team_string tb))))
        ((parse_team_string tb).map (getRating (initPlayers s.players
          (parse_team_string ta ++ parse_team_string tb))))
        tw 32 = some (na, nb, rc) ∧
      dictLookup s'.players p = some (((n - rc : ℤ) : ℝ)) := by
  set pa := parse_team_string ta with hpaeq
  set pb := parse_team_string tb with hpbeq
  set d' := initPlayers s.players (pa ++ pb) with hdeq
  set rcR := rating_changeR (pa.map (getRating d')) (pb.map (getRating d')) tw 32 with hrceq
  have hd' : IntegerValued d' := integerValued_initPlayers hs _
  have hsome := dictLookup_initPlayers_isSome_of_mem s.players (pa ++ pb) p
    (List.mem_append_left pb hmem_a)
  rw [← hdeq] at hsome
  rcases Option.isSome_iff_exists.mp hsome with ⟨v, hv⟩
  rcases hd' p v hv with ⟨n, rfl⟩
  have hia : ∀ x ∈ pa.map (getRating d'), ∃ k : ℤ, x = ((k : ℝ)) := by
    intro x hx
    rcases List.mem_map.mp hx with ⟨q, hq, rfl⟩
    have hqs := dictLookup_initPlayers_isSome_of_mem s.players (pa ++ pb) q
      (List.mem_append_left pb hq)
    rw [← hdeq] at hqs
    rcases Option.isSome_iff_exists.mp hqs with ⟨u, hu⟩
    rcases hd' q u hu with ⟨k, rfl⟩
    exact ⟨k, by simp [getRating, hu]⟩
  have hib : ∀ x ∈ pb.map (getRating d'), ∃ k : ℤ, x = ((k : ℝ)) := by
    intro x hx
    rcases List.mem_map.mp hx with ⟨q, hq, rfl⟩
    have hqs := dictLookup_initPlayers_isSome_of_mem s.players (pa ++ pb) q
      (List.mem_append_right pa hq)
    rw [← hdeq] at hqs
    rcases Option.isSome_iff_exists.mp hqs with ⟨u, hu⟩
    rcases hd' q u hu with ⟨k, rfl⟩
    exact ⟨k, by simp [getRating, hu]⟩
  have hgp : getRating d' p = ((n : ℝ)) := by simp [getRating, hv]
  have hfr : Int.fract rcR ≠ 1 / 2 := by
    rw [hrceq]
    exact fract_rating_changeR_ne_half hia hib tw
  have hupdeq := update_elo_ratings_eq (pa.map (getRating d')) (pb.map (getRating d'))
    (by simpa using ha) (by simpa using hb) tw 32
  rw [← hrceq] at hupdeq
  rw [process_quick_entry_valid s ta tb tw pa pb d' rcR hpaeq hpbeq hdeq hrceq hta htb ha hb]
  refine ⟨_, _, n, pyRound rcR,
    (pa.map (getRating d')).map (fun rating => pyRound (rating + rcR)),
    (pb.map (getRating d')).map (fun rating => pyRound (rating - rcR)),
    rfl, hv, hupdeq, ?_⟩
  show dictLookup (applyRatings (applyRatings d' pa
      (pa.map fun q => pyRound (getRating d' q + rcR))) pb
      (pb.map fun q => pyRound (getRating d' q - rcR))) p = some (((n - pyRound rcR : ℤ) : ℝ))
  rw [dictLookup_applyRatings_map, if_pos hmem_b, hgp, pyRound_int_sub hfr]

/-- C10: when the same player name appears on both teams of one valid match
(over an integer-valued store, as every reachable store is), through either
entry path — a bulk-upload row or a quick-entry form submission — both
teams' before-ratings are read before any write and team A's new ratings are
written before team B's, so the player's final stored rating is the team-B
update `n - rc` of their pre-match (post-initialization) rating `n`, the
team-A write having been overwritten. -/
theorem claim_C10_duplicate_player (s : AppState) (row : Row) (ta tb : String)
    (tw : Bool) (p : String) (hs : IntegerValued s.players)
    (ha : parse_team_string (pyStrip row.Team_A) ≠ [])
    (hb : parse_team_string (pyStrip row.Team_B) ≠ [])
    (hw : pyStrip row.Winner = "Team_A" ∨ pyStrip row.Winner = "Team_B")
    (hmem_a : p ∈ parse_team_string (pyStrip row.Team_A))
    (hmem_b : p ∈ parse_team_string (pyStrip row.Team_B))
    (hta : ta ≠ "") (htb : tb ≠ "")
    (ha2 : parse_team_string ta ≠ []) (hb2 : parse_team_string tb ≠ [])
    (hmem_a2 : p ∈ parse_team_string ta) (hmem_b2 : p ∈ parse_team_string tb) :
    (∃ (s' : AppState) (rec : MatchRecord) (n rc : ℤ) (na nb : List ℤ),
      process_bulk_row s row = (s', some rec) ∧
      dictLookup (initPlayers s.players (parse_team_string (pyStrip row.Team_A) ++
        parse_team_string (pyStrip row.Team_B))) p = some ((n : ℝ)) ∧
      update_elo_ratings
        ((parse_team_string (pyStrip row.Team_A)).map (getRating (initPlayers s.players
          (parse_team_string (pyStrip row.Team_A) ++
            parse_team_string (pyStrip row.Team_B)))))
        ((parse_team_string (pyStrip row.Team_B)).map (getRating (initPlayers s.players
          (parse_team_string (pyStrip row.Team_A) ++
            parse_team_string (pyStrip row.Team_B)))))
        (pyStrip row.Winner = "Team_A") 32 = some (na, nb, rc) ∧
      dictLookup s'.players p = some (((n - rc : ℤ) : ℝ))) ∧
    (∃ (s' : AppState) (rec : MatchRecord) (n rc : ℤ) (na nb : List ℤ),
      process_quick_entry s ta tb tw = (s', some rec) ∧
      dictLookup (initPlayers s.players (parse_team_string ta ++
        parse_team_string tb)) p = some ((n : ℝ)) ∧
      update_elo_ratings
        ((parse_team_string ta).map (getRating (initPlayers s.players
          (parse_team_string ta ++ parse_team_string tb))))
        ((parse_team_string tb).map (getRating (initPlayers s.players
          (parse_team_string ta ++ parse_team_string tb))))
        tw 32 = some (na, nb, rc) ∧
      dictLookup s'.players p = some (((n - rc : ℤ) : ℝ))) := by
  constructor
  · rcases hw with hw | hw
    · rw [hw, show decide (("Team_A" : String) = "Team_A") = true from by decide]
      exact process_bulk_row_duplicate_member s row p true hs ha hb (by simp [hw])
        hmem_a hmem_b
    · rw [hw, show decide (("Team_B" : String) = "Team_A") = false from by decide]
      exact process_bulk_row_duplicate_member s row p false hs ha hb (by simp [hw])
        hmem_a hmem_b
  · exact process_quick_entry_duplicate_member s ta tb p tw hs hta htb ha2 hb2
      hmem_a2 hmem_b2

/-- C10 witness: the match `Al vs Al,Bo, Team A wins` from the empty store,
entered both as a bulk row and through the quick-entry form: Al is on both
teams and ends at the team-B update of 1400 in either path. -/
theorem claim_C10_witness :
    (parse_team_string (pyStrip "Al") ≠ [] ∧ parse_team_string (pyStrip "Al,Bo") ≠ [] ∧
     (pyStrip "Team_A" = "Team_A" ∨ pyStrip "Team_A" = "Team_B") ∧
     "Al" ∈ parse_team_string (pyStrip "Al") ∧ "Al" ∈ parse_team_string (pyStrip "Al,Bo") ∧
     ("Al" : String) ≠ "" ∧ ("Al,Bo" : String) ≠ "" ∧
     parse_team_string "Al" ≠ [] ∧ parse_team_string "Al,Bo" ≠ [] ∧
     "Al" ∈ parse_team_string "Al" ∧ "Al" ∈ parse_team_string "Al,Bo") ∧
    ((∃ (s' : AppState) (rec : MatchRecord) (n rc : ℤ) (na nb : List ℤ),
       process_bulk_row initialState ⟨"Al", "Al,Bo", "Team_A"⟩ = (s', some rec) ∧
       dictLookup (initPlayers initialState.players (parse_team_string (pyStrip "Al") ++
         parse_team_string (pyStrip "Al,Bo"))) "Al" = some ((n : ℝ)) ∧
       update_elo_ratings
         ((parse_team_string (pyStrip "Al")).map (getRating (initPlayers initialState.players
           (parse_team_string (pyStrip "Al") ++ parse_team_string (pyStrip "Al,Bo")))))
         ((parse_team_string (pyStrip "Al,Bo")).map (getRating (initPlayers initialState.players
           (parse_team_string (pyStrip "Al") ++ parse_team_string (pyStrip "Al,Bo")))))
         (pyStrip "Team_A" = "Team_A") 32 = some (na, nb, rc) ∧
       dictLookup s'.players "Al" = some (((n - rc : ℤ) : ℝ))) ∧
     (∃ (s' : AppState) (rec : MatchRecord) (n rc : ℤ) (na nb : List ℤ),
       process_quick_entry initialState "Al" "Al,Bo" true = (s', some rec) ∧
       dictLookup (initPlayers initialState.players (parse_team_string "Al" ++
         parse_team_string "Al,Bo")) "Al" = some ((n : ℝ)) ∧
       update_elo_ratings
         ((parse_team_string "Al").map (getRating (initPlayers initialState.players
           (parse_team_string "Al" ++ parse_team_string "Al,Bo"))))
         ((parse_team_string "Al,Bo").map (getRating (initPlayers initialState.players
           (parse_team_string "Al" ++ parse_team_string "Al,Bo"))))
         true 32 = some (na, nb, rc) ∧
       dictLookup s'.players "Al" = some (((n - rc : ℤ) : ℝ)))) :=
  ⟨⟨by decide, by decide, by decide, by decide, by decide, by decide, by decide,
    by decide, by decide, by decide, by decide⟩,
   claim_C10_duplicate_player initialState ⟨"Al", "Al,Bo", "Team_A"⟩ "Al" "Al,Bo" true "Al"
     (fun p r hp => absurd hp (by simp [initialState, dictLookup]))
     (by decide) (by decide) (by decide) (by decide) (by decide)
     (by decide) (by decide) (by decide) (by decide) (by decide) (by decide)⟩

end VolleyballElo
